import Mathlib

/-
Verification of the settings persistence and transformation engine of the
obsidian-dev-utils repository, centred on PluginSettingsManagerBase.

The data model is a shallow embedding of the JavaScript runtime values the
manager manipulates.  Functions of PluginSettingsManagerBase.ts are embedded
as Lean functions over that model.  Collaborator code that lives outside the
provided sources (the transformer chain, deepEqual, getAllKeys) is modelled
from the specification; every such definition carries a doc comment starting
with the words Modelled from the spec.
-/

namespace ObsidianDevUtils

/-- A JavaScript runtime value as manipulated by the settings manager.
vDate and vDuration model the date-like and duration-like class instances
handled by the transformer chain, carrying their ISO text representation.
vPromise models an unresolved promise object: the source of cloneSettings
calls two async methods without awaiting them, so promise objects flow
through the data path and the model must represent them. -/
inductive Value : Type where
  | vUndefined : Value
  | vNull : Value
  | vBool (b : Bool) : Value
  | vNum (n : Int) : Value
  | vStr (s : String) : Value
  | vDate (iso : String) : Value
  | vDuration (iso : String) : Value
  | vArr (elems : List Value) : Value
  | vObj (props : List (String × Value)) : Value
  | vPromise (result : Value) : Value

mutual

/-- Structural equality test on values. -/
def beqV : Value → Value → Bool
  | .vUndefined, .vUndefined => true
  | .vNull, .vNull => true
  | .vBool a, .vBool b => a == b
  | .vNum a, .vNum b => a == b
  | .vStr a, .vStr b => a == b
  | .vDate a, .vDate b => a == b
  | .vDuration a, .vDuration b => a == b
  | .vArr a, .vArr b => beqList a b
  | .vObj a, .vObj b => beqProps a b
  | .vPromise a, .vPromise b => beqV a b
  | _, _ => false

/-- Structural equality test on property lists. -/
def beqProps : List (String × Value) → List (String × Value) → Bool
  | [], [] => true
  | (k1, v1) :: r1, (k2, v2) :: r2 => k1 == k2 && beqV v1 v2 && beqProps r1 r2
  | _, _ => false

/-- Structural equality test on element lists. -/
def beqList : List Value → List Value → Bool
  | [], [] => true
  | a :: r1, b :: r2 => beqV a b && beqList r1 r2
  | _, _ => false

end

mutual

def beqV_refl : ∀ (a : Value), beqV a a = true
  | .vUndefined => rfl
  | .vNull => rfl
  | .vBool a => by simp [beqV]
  | .vNum a => by simp [beqV]
  | .vStr a => by simp [beqV]
  | .vDate a => by simp [beqV]
  | .vDuration a => by simp [beqV]
  | .vArr a => by simp [beqV]; exact beqList_refl a
  | .vObj a => by simp [beqV]; exact beqProps_refl a
  | .vPromise a => by simp [beqV]; exact beqV_refl a

def beqProps_refl : ∀ (a : List (String × Value)), beqProps a a = true
  | [] => rfl
  | (k, v) :: rest => by
      simp [beqProps]
      exact ⟨beqV_refl v, beqProps_refl rest⟩

def beqList_refl : ∀ (a : List Value), beqList a a = true
  | [] => rfl
  | v :: rest => by
      simp [beqList]
      exact ⟨beqV_refl v, beqList_refl rest⟩

end

mutual

def beqV_sound : ∀ (a b : Value), beqV a b = true → a = b
  | .vUndefined, b, h => by cases b <;> first | rfl | simp [beqV] at h
  | .vNull, b, h => by cases b <;> first | rfl | simp [beqV] at h
  | .vBool a, b, h => by cases b <;> simp_all [beqV]
  | .vNum a, b, h => by cases b <;> simp_all [beqV]
  | .vStr a, b, h => by cases b <;> simp_all [beqV]
  | .vDate a, b, h => by cases b <;> simp_all [beqV]
  | .vDuration a, b, h => by cases b <;> simp_all [beqV]
  | .vArr a, b, h => by
      cases b <;> simp [beqV] at h
      case vArr bs => exact congrArg Value.vArr (beqList_sound a bs h)
  | .vObj a, b, h => by
      cases b <;> simp [beqV] at h
      case vObj bs => exact congrArg Value.vObj (beqProps_sound a bs h)
  | .vPromise a, b, h => by
      cases b <;> simp [beqV] at h
      case vPromise bv => exact congrArg Value.vPromise (beqV_sound a bv h)

def beqProps_sound : ∀ (a b : List (String × Value)), beqProps a b = true → a = b
  | [], [], _ => rfl
  | [], _ :: _, h => by simp [beqProps] at h
  | _ :: _, [], h => by simp [beqProps] at h
  | (k1, v1) :: r1, (k2, v2) :: r2, h => by
      simp only [beqProps, Bool.and_eq_true, beq_iff_eq] at h
      obtain ⟨⟨hk, hv⟩, hr⟩ := h
      rw [hk, beqV_sound v1 v2 hv, beqProps_sound r1 r2 hr]

def beqList_sound : ∀ (a b : List Value), beqList a b = true → a = b
  | [], [], _ => rfl
  | [], _ :: _, h => by simp [beqList] at h
  | _ :: _, [], h => by simp [beqList] at h
  | v1 :: r1, v2 :: r2, h => by
      simp only [beqList, Bool.and_eq_true] at h
      obtain ⟨hv, hr⟩ := h
      rw [beqV_sound v1 v2 hv, beqList_sound r1 r2 hr]

end

instance : DecidableEq Value := fun a b =>
  if h : beqV a b = true then isTrue (beqV_sound a b h)
  else isFalse (fun e => h (e ▸ beqV_refl a))

/-- Lookup of an own property in an ordered property list, by key. -/
def lookupProp {α : Type} : List (String × α) → String → Option α
  | [], _ => none
  | (k, v) :: rest, key => if k = key then some v else lookupProp rest key

/-- JavaScript property assignment on an ordered property list: an existing
key keeps its position and receives the new value, a fresh key is appended. -/
def setEntry {α : Type} : List (String × α) → String → α → List (String × α)
  | [], key, v => [(key, v)]
  | (k, w) :: rest, key, v =>
      if k = key then (key, v) :: rest else (k, w) :: setEntry rest key v

/-- The ordered list of keys of a property list. -/
def keysOf {α : Type} (props : List (String × α)) : List String :=
  props.map Prod.fst

/-- The own property list of a value; empty for non-object values. -/
def asProps : Value → List (String × Value)
  | .vObj props => props
  | _ => []

/-- JavaScript member access: reading a missing property yields undefined. -/
def getProp (v : Value) (key : String) : Value :=
  (lookupProp (asProps v) key).getD .vUndefined

/-- JavaScript property assignment on a value; a no-op on values the manager
never assigns into. -/
def setPropV (v : Value) (key : String) (newValue : Value) : Value :=
  match v with
  | .vObj props => .vObj (setEntry props key newValue)
  | other => other

/-- The JavaScript typeof operator restricted to the modelled values. -/
def typeofV : Value → String
  | .vUndefined => "undefined"
  | .vBool _ => "boolean"
  | .vNum _ => "number"
  | .vStr _ => "string"
  | _ => "object"

/-- Object.entries: the own enumerable entries of a value.  Arrays enumerate
their elements under stringified indices. -/
def entriesOf : Value → List (String × Value)
  | .vObj props => props
  | .vArr elems => elems.enum.map (fun iv => (toString iv.1, iv.2))
  | _ => []

/-- Modelled from the spec: the private naming convention used by
SkipPrivatePropertyTransformer (not under the provided sources) is an
underscore prefix on the property name. -/
def isPrivateKey (key : String) : Bool :=
  match key.data with
  | [] => false
  | c :: _ => c == '_'

mutual

/-- Modelled from the spec: the forward transformation of the default chain
GroupTransformer [SkipPrivatePropertyTransformer, DateTransformer,
DurationTransformer], whose member classes are not under the provided
sources.  Members apply in list order: private properties are dropped first,
then date-like and duration-like values are replaced by their serializable
tagged records without further recursion; plain objects and arrays are
recursed into; all other values pass through unchanged. -/
def fwdV : Value → Value
  | .vDate iso => .vObj [("$date", .vStr iso)]
  | .vDuration iso => .vObj [("$duration", .vStr iso)]
  | .vObj props => .vObj (fwdProps props)
  | .vArr elems => .vArr (fwdList elems)
  | v => v

/-- Forward transformation of a property list: drop private keys, transform
the remaining values. -/
def fwdProps : List (String × Value) → List (String × Value)
  | [] => []
  | (k, v) :: rest =>
      if isPrivateKey k then fwdProps rest else (k, fwdV v) :: fwdProps rest

/-- Forward transformation of an array element list. -/
def fwdList : List Value → List Value
  | [] => []
  | v :: rest => fwdV v :: fwdList rest

end

/-- Recognizer for the serializable representation a date-like or
duration-like value was transformed into: exactly one tagged property
holding a string. -/
def decodeTagged : List (String × Value) → Option Value
  | [(k, .vStr s)] =>
      if k = "$date" then some (.vDate s)
      else if k = "$duration" then some (.vDuration s)
      else none
  | _ => none

mutual

/-- Modelled from the spec: the backward transformation of the default
chain.  Members apply in reverse list order: serialized date-like and
duration-like representations are reconstructed without further recursion,
plain objects and arrays are recursed into, the skip-private member is a
no-op backward, and all other values pass through unchanged. -/
def bwdV : Value → Value
  | .vObj props =>
      match decodeTagged props with
      | some v => v
      | none => .vObj (bwdProps props)
  | .vArr elems => .vArr (bwdList elems)
  | v => v

/-- Backward transformation of a property list. -/
def bwdProps : List (String × Value) → List (String × Value)
  | [] => []
  | (k, v) :: rest => (k, bwdV v) :: bwdProps rest

/-- Backward transformation of an array element list. -/
def bwdList : List Value → List Value
  | [] => []
  | v :: rest => bwdV v :: bwdList rest

end

mutual

/-- Removal of every private-prefixed property, recursively; the identity on
everything else.  This is the loss the skip-private member of the chain
inflicts on a forward and backward round trip. -/
def stripPrivate : Value → Value
  | .vObj props => .vObj (stripProps props)
  | .vArr elems => .vArr (stripList elems)
  | v => v

/-- Removal of private-prefixed properties from a property list. -/
def stripProps : List (String × Value) → List (String × Value)
  | [] => []
  | (k, v) :: rest =>
      if isPrivateKey k then stripProps rest
      else (k, stripPrivate v) :: stripProps rest

/-- Removal of private-prefixed properties inside array elements. -/
def stripList : List Value → List Value
  | [] => []
  | v :: rest => stripPrivate v :: stripList rest

end

mutual

/-- The supported value shapes of the round-trip property: a value is
supported when none of its objects, once their private properties are
dropped, collides with the serialized representation of a date-like or
duration-like value. -/
def supportedV : Value → Bool
  | .vObj props => (decodeTagged (fwdProps props)).isNone && supportedProps props
  | .vArr elems => supportedList elems
  | _ => true

/-- Supported shape check for a property list. -/
def supportedProps : List (String × Value) → Bool
  | [] => true
  | (_, v) :: rest => supportedV v && supportedProps rest

/-- Supported shape check for an array element list. -/
def supportedList : List Value → Bool
  | [] => true
  | v :: rest => supportedV v && supportedList rest

end

/-- Insertion of a property into a key-sorted property list. -/
def insertByKey (kv : String × Value) : List (String × Value) → List (String × Value)
  | [] => [kv]
  | kv2 :: rest =>
      if (compare kv.1 kv2.1).isLE then kv :: kv2 :: rest
      else kv2 :: insertByKey kv rest

/-- Sorting of a property list by key. -/
def sortByKey (props : List (String × Value)) : List (String × Value) :=
  props.foldr insertByKey []

mutual

/-- Canonical form of a value with object properties sorted by key,
recursively; used to compare values regardless of property order. -/
def normalizeV : Value → Value
  | .vObj props => .vObj (sortByKey (normalizeProps props))
  | .vArr elems => .vArr (normalizeList elems)
  | v => v

/-- Canonical form of the values of a property list. -/
def normalizeProps : List (String × Value) → List (String × Value)
  | [] => []
  | (k, v) :: rest => (k, normalizeV v) :: normalizeProps rest

/-- Canonical form of the elements of an array. -/
def normalizeList : List Value → List Value
  | [] => []
  | v :: rest => normalizeV v :: normalizeList rest

end

/-- Modelled from the spec: deepEqual from Object.ts (not under the provided
sources) is a deep structural equality on values, insensitive to the order
in which object properties were inserted. -/
def deepEqual (a b : Value) : Bool :=
  beqV (normalizeV a) (normalizeV b)

mutual

/-- The composite of JSON.stringify and JSON.parse as it acts on the
modelled values: promise objects have no own enumerable properties and
serialize as empty objects, date-like values serialize through their toJSON
hook, duration-like values have no own enumerable properties either,
undefined-valued properties are dropped, and undefined array elements
become null. -/
def jsonRoundTrip : Value → Value
  | .vPromise _ => .vObj []
  | .vDuration _ => .vObj []
  | .vDate iso => .vStr iso
  | .vObj props => .vObj (jsonProps props)
  | .vArr elems => .vArr (jsonList elems)
  | .vUndefined => .vNull
  | v => v

/-- JSON round trip of a property list: undefined-valued properties drop. -/
def jsonProps : List (String × Value) → List (String × Value)
  | [] => []
  | (k, v) :: rest =>
      match v with
      | .vUndefined => jsonProps rest
      | other => (k, jsonRoundTrip other) :: jsonProps rest

/-- JSON round trip of an array element list. -/
def jsonList : List Value → List Value
  | [] => []
  | v :: rest => jsonRoundTrip v :: jsonList rest

end

/-- One settings wrapper: the triple of views making up a snapshot.
The settings and safeSettings views are modelled as values rather than
property lists because the source of cloneSettings can produce a promise
object where a settings object is expected. -/
structure Wrapper where
  safeSettings : Value
  settings : Value
  validationMessages : List (String × String)
deriving DecidableEq

/-- The fixed collaborator-supplied data of one manager: the default
settings produced by the pure createDefaultSettings factory and the
registered validators.  A validator receives the property value and the
full settings object and returns a diagnostic message, where the empty
string means the value is valid (the source models a missing return value
and an empty message the same way, by truthiness). -/
structure PluginSettingsManagerBase where
  defaultSettings : List (String × Value)
  validators : List (String × (Value → Value → String))

/-- The mutable state of one manager: the current and last saved wrappers. -/
structure ManagerState where
  currentSettingsWrapper : Wrapper
  lastSavedSettingsWrapper : Wrapper
deriving DecidableEq

/-- The fixed property-name list, captured at construction from the own
keys of the default settings (getAllKeys of Object.ts, modelled from the
spec as the own key list). -/
def propertyNames (m : PluginSettingsManagerBase) : List String :=
  keysOf m.defaultSettings

/-- Embeds isValidPropertyName: membership in the fixed name list. -/
def isValidPropertyName (m : PluginSettingsManagerBase) (prop : String) : Bool :=
  (propertyNames m).contains prop

/-- Truthiness of an optional validation message: a missing message and the
empty string are both falsy. -/
def truthyMsg : Option String → Bool
  | some s => s != ""
  | none => false

/-- Embeds createDefaultSettingsWrapper: both views seeded from the pure
default factory, validation messages starting as an empty record. -/
def createDefaultSettingsWrapper (m : PluginSettingsManagerBase) : Wrapper :=
  { safeSettings := .vObj m.defaultSettings
    settings := .vObj m.defaultSettings
    validationMessages := [] }

/-- Embeds the constructor: both wrappers start as fresh default wrappers. -/
def constructState (m : PluginSettingsManagerBase) : ManagerState :=
  { currentSettingsWrapper := createDefaultSettingsWrapper m
    lastSavedSettingsWrapper := createDefaultSettingsWrapper m }

/-- The collecting loop of validate over a list of validator entries. -/
def validateFold (settings : Value) (l : List (String × (Value → Value → String)))
    (acc : List (String × String)) : List (String × String) :=
  l.foldl
    (fun result pv =>
      let validationMessage := pv.2 (getProp settings pv.1) settings
      if validationMessage = "" then result
      else setEntry result pv.1 validationMessage)
    acc

/-- Embeds validate: runs every registered validator on the given settings
and collects only truthy messages. -/
def validate (m : PluginSettingsManagerBase) (settings : Value) : List (String × String) :=
  validateFold settings m.validators []

/-- Embeds setPropertyImpl: writes the value, the message (defaulted to the
empty string) and the safe view entry, which is the default value when the
message is truthy and the new value otherwise. -/
def setPropertyImpl (m : PluginSettingsManagerBase) (w : Wrapper) (propertyName : String)
    (value : Value) (validationMessage : Option String) : Wrapper :=
  { settings := setPropV w.settings propertyName value
    validationMessages := setEntry w.validationMessages propertyName (validationMessage.getD "")
    safeSettings := setPropV w.safeSettings propertyName
      (if truthyMsg validationMessage then getProp (.vObj m.defaultSettings) propertyName
       else value) }

/-- The result of parsing a raw record: the parsed settings and the
console warnings emitted along the way. -/
structure ParseResult where
  settings : Value
  warnings : List String
deriving DecidableEq

/-- Embeds rawRecordToSettings with the default no-op onLoadRecord hook:
seeds the parsed settings from the default factory, then copies every
entry of the record whose key is a valid property name, warning about
unknown properties and about top-level typeof mismatches with the default
value.  The raw value is stored as it is. -/
def rawParseFold (m : PluginSettingsManagerBase) (entries : List (String × Value))
    (acc : ParseResult) : ParseResult :=
  entries.foldl
    (fun acc kv =>
      if isValidPropertyName m kv.1 then
        { settings := setPropV acc.settings kv.1 kv.2
          warnings :=
            if typeofV kv.2 = typeofV (getProp (.vObj m.defaultSettings) kv.1) then acc.warnings
            else acc.warnings ++ ["Possible invalid value type: " ++ kv.1] }
      else { acc with warnings := acc.warnings ++ ["Unknown property: " ++ kv.1] })
    acc

def rawRecordToSettings (m : PluginSettingsManagerBase) (rawRecord : Value) : ParseResult :=
  rawParseFold m (entriesOf rawRecord) { settings := .vObj m.defaultSettings, warnings := [] }

/-- Embeds settingsToRawRecord with the default no-op onSavingRecord hook:
collects the current value of every fixed property into a fresh record and
applies the forward transformation of the default chain to it. -/
def settingsToRawRecord (m : PluginSettingsManagerBase) (settings : Value) : Value :=
  fwdV (.vObj ((propertyNames m).map (fun propertyName => (propertyName, getProp settings propertyName))))

/-- The JavaScript object underlying a wrapper, as seen by code that
receives the wrapper itself where a settings object was expected. -/
def wrapperToValue (w : Wrapper) : Value :=
  .vObj
    [("safeSettings", w.safeSettings),
     ("settings", w.settings),
     ("validationMessages", .vObj (w.validationMessages.map (fun kv => (kv.1, Value.vStr kv.2))))]

/-- Embeds saveToFileImpl: the record handed to the persistence
collaborator.  Faithful to the source, which passes the whole current
settings wrapper, not its settings view, to settingsToRawRecord. -/
def saveToFileImplRecord (m : PluginSettingsManagerBase) (st : ManagerState) : Value :=
  settingsToRawRecord m (wrapperToValue st.currentSettingsWrapper)

/-- Embeds cloneSettings.  Faithful to the source, where the calls to the
async methods settingsToRawRecord and rawRecordToSettings are not awaited:
the value passed to the JSON round trip is a promise object, and the value
returned is a promise object as well. -/
def cloneSettings (m : PluginSettingsManagerBase) (settings : Value) : Value :=
  let record := Value.vPromise (settingsToRawRecord m settings)
  let cloneRecord := jsonRoundTrip record
  Value.vPromise (rawRecordToSettings m cloneRecord).settings

/-- Embeds cloneSettingsWrapper: clones both settings views and copies the
validation message record. -/
def cloneSettingsWrapper (m : PluginSettingsManagerBase) (w : Wrapper) : Wrapper :=
  { safeSettings := cloneSettings m w.safeSettings
    settings := cloneSettings m w.settings
    validationMessages := w.validationMessages }

/-- Embeds the finally block of edit: for every fixed property, writes the
validation message (defaulted to the empty string) and recomputes the safe
view entry from the freshly validated result. -/
def recomputeFold (m : PluginSettingsManagerBase)
    (validationResult : List (String × String)) (w : Wrapper) (props : List String) : Wrapper :=
  props.foldl
    (fun acc propertyName =>
      let validationMessage := (lookupProp validationResult propertyName).getD ""
      { acc with
        validationMessages := setEntry acc.validationMessages propertyName validationMessage
        safeSettings := setPropV acc.safeSettings propertyName
          (if validationMessage = "" then getProp acc.settings propertyName
           else getProp (.vObj m.defaultSettings) propertyName) })
    w

def recomputeWrapper (m : PluginSettingsManagerBase) (w : Wrapper)
    (validationResult : List (String × String)) : Wrapper :=
  recomputeFold m validationResult w (propertyNames m)

/-- The outcome of edit: the new manager state and the exception the editor
function raised, when it raised one. -/
structure EditOutcome where
  state : ManagerState
  thrown : Option String
deriving DecidableEq

/-- Embeds edit.  The editor function mutates the current settings object
in place and possibly raises; it is modelled as a function from the
property list to the mutated property list together with the optional
raised exception.  Faithful to the try-finally of the source, the
revalidation and recompute pass runs whether or not the editor raised, and
the exception is then propagated. -/
def edit (m : PluginSettingsManagerBase) (st : ManagerState)
    (settingsEditor : List (String × Value) → List (String × Value) × Option String) : EditOutcome :=
  let editResult := settingsEditor (asProps st.currentSettingsWrapper.settings)
  let newSettings := Value.vObj editResult.1
  let validationResult := validate m newSettings
  let cur := recomputeWrapper m
    { st.currentSettingsWrapper with settings := newSettings } validationResult
  { state := { st with currentSettingsWrapper := cur }, thrown := editResult.2 }

/-- The outcome of setProperty: the new state and the returned message,
read back from the validation message record of the current wrapper. -/
structure SetPropertyOutcome where
  state : ManagerState
  validationMessage : Option String
deriving DecidableEq

/-- Embeds setProperty: edits exactly one property, then returns the entry
that property now has in the validation message record. -/
def setProperty (m : PluginSettingsManagerBase) (st : ManagerState)
    (propertyName : String) (value : Value) : SetPropertyOutcome :=
  let editOutcome := edit m st (fun props => (setEntry props propertyName value, none))
  { state := editOutcome.state
    validationMessage :=
      lookupProp editOutcome.state.currentSettingsWrapper.validationMessages propertyName }

/-- Embeds ensureSafe: validates the given settings object and overwrites
every property with a truthy message by its default value, in place. -/
def ensureSafeFold (m : PluginSettingsManagerBase)
    (validationResult : List (String × String)) (settings : Value) (props : List String) : Value :=
  props.foldl
    (fun acc propertyName =>
      if truthyMsg (lookupProp validationResult propertyName) then
        setPropV acc propertyName (getProp (.vObj m.defaultSettings) propertyName)
      else acc)
    settings

def ensureSafe (m : PluginSettingsManagerBase) (settings : Value) : Value :=
  ensureSafeFold m (validate m settings) settings (propertyNames m)

/-- Embeds getSafeCopy: a clone of the settings made safe. -/
def getSafeCopy (m : PluginSettingsManagerBase) (settings : Value) : Value :=
  ensureSafe m (cloneSettings m settings)

/-- The outcome of saveToFile: the new state and the list of records
written to the persistence collaborator during the call. -/
structure SaveOutcome where
  state : ManagerState
  writes : List Value
deriving DecidableEq

/-- Embeds saveToFile with the external onSaveSettings hook treated as a
no-op effect: skips everything when the last saved settings deep-equal the
current settings, otherwise writes the saveToFileImpl record and replaces
the last saved wrapper by a clone of the current one. -/
def saveToFile (m : PluginSettingsManagerBase) (st : ManagerState) : SaveOutcome :=
  if deepEqual st.lastSavedSettingsWrapper.settings st.currentSettingsWrapper.settings then
    { state := st, writes := [] }
  else
    { state :=
        { currentSettingsWrapper := st.currentSettingsWrapper
          lastSavedSettingsWrapper := cloneSettingsWrapper m st.currentSettingsWrapper }
      writes := [saveToFileImplRecord m st] }

/-- Absence check of the loaded record: strict equality against undefined
or null. -/
def isNullish : Value → Bool
  | .vUndefined => true
  | .vNull => true
  | _ => false

/-- The loop of loadFromFile that pushes every parsed property through
setPropertyImpl. -/
def applyLoadUpdates (m : PluginSettingsManagerBase) (parsedSettings : Value)
    (validationResult : List (String × String)) (w : Wrapper) (props : List String) : Wrapper :=
  props.foldl
    (fun acc propertyName =>
      setPropertyImpl m acc propertyName (getProp parsedSettings propertyName)
        (lookupProp validationResult propertyName))
    w

/-- The outcome of loadFromFile: the new state, the records written back,
and the console warnings and errors emitted. -/
structure LoadOutcome where
  state : ManagerState
  writes : List Value
  warnings : List String
  errors : List String
deriving DecidableEq

/-- Embeds loadFromFile with the default hooks.  Both wrappers are reset to
fresh default wrappers first; an absent record returns silently and a
non-object record logs an error and returns, in both cases without any
write; otherwise the record is parsed, validated, pushed into the current
wrapper property by property, the last saved wrapper becomes a clone of
the current one, and when the reserialized current settings do not
deep-equal the loaded record the saveToFileImpl record is written back.
The isInitialLoad flag only feeds the external onLoadSettings hook and is
omitted. -/
def loadFromFile (m : PluginSettingsManagerBase) (data : Value) : LoadOutcome :=
  let st1 := constructState m
  if isNullish data then
    { state := st1, writes := [], warnings := [], errors := [] }
  else if typeofV data ≠ "object" then
    { state := st1, writes := [], warnings := []
      errors := ["Invalid settings from data.json. Expected Object, got: " ++ typeofV data] }
  else
    let parseResult := rawRecordToSettings m data
    let validationResult := validate m parseResult.settings
    let cur := applyLoadUpdates m parseResult.settings validationResult
      st1.currentSettingsWrapper (propertyNames m)
    let st2 : ManagerState :=
      { currentSettingsWrapper := cur
        lastSavedSettingsWrapper := cloneSettingsWrapper m cur }
    let newRecord := settingsToRawRecord m cur.settings
    { state := st2
      writes := if deepEqual newRecord data then [] else [saveToFileImplRecord m st2]
      warnings := parseResult.warnings
      errors := [] }

/-- The outcome of editAndSave. -/
structure EditAndSaveOutcome where
  state : ManagerState
  writes : List Value
  thrown : Option String
deriving DecidableEq

/-- Embeds editAndSave: edit, then saveToFile; an exception of the editor
propagates before any save happens. -/
def editAndSave (m : PluginSettingsManagerBase) (st : ManagerState)
    (settingsEditor : List (String × Value) → List (String × Value) × Option String) : EditAndSaveOutcome :=
  let e := edit m st settingsEditor
  match e.thrown with
  | some err => { state := e.state, writes := [], thrown := some err }
  | none =>
      let s := saveToFile m e.state
      { state := s.state, writes := s.writes, thrown := none }

theorem deepEqual_self (a : Value) : deepEqual a a = true :=
  beqV_refl (normalizeV a)


/-- Object check: whether a value is a plain object. -/
def isObjV : Value → Bool
  | .vObj _ => true
  | _ => false

/-- The safe-value invariant of a wrapper: for every fixed property, the
safe view holds the default value when the validation message entry is
truthy and the settings view value otherwise. -/
def safeInvariant (m : PluginSettingsManagerBase) (w : Wrapper) : Prop :=
  ∀ p ∈ propertyNames m,
    getProp w.safeSettings p =
      (if truthyMsg (lookupProp w.validationMessages p) then getProp (.vObj m.defaultSettings) p
       else getProp w.settings p)

/-- A base property list with every key that a record carries overridden by
the record value; the canonical result of the valid-key copy loop of
rawRecordToSettings. -/
def overrideBase {α : Type} (base : List (String × α)) (record : List (String × α)) :
    List (String × α) :=
  base.map (fun kv => (kv.1, (lookupProp record kv.1).getD kv.2))

/-- The current wrapper built by the main branch of loadFromFile. -/
def loadedCurrentWrapper (m : PluginSettingsManagerBase) (data : Value) : Wrapper :=
  applyLoadUpdates m (rawRecordToSettings m data).settings
    (validate m (rawRecordToSettings m data).settings)
    (createDefaultSettingsWrapper m) (propertyNames m)

/-- A concrete manager with two properties and a validator rejecting
negative retries, mirroring the scenario of the spec. -/
def mgrRetries : PluginSettingsManagerBase :=
  { defaultSettings := [("retries", .vNum 3), ("name", .vStr "x")]
    validators :=
      [("retries", fun v _ =>
        match v with
        | .vNum n => if n < 0 then "retries must be non-negative" else ""
        | _ => "retries must be a number")] }

/-- A concrete manager with two properties and no validators. -/
def mgrPlain : PluginSettingsManagerBase :=
  { defaultSettings := [("retries", .vNum 3), ("name", .vStr "x")]
    validators := [] }

/-- A concrete manager whose single property is date-valued. -/
def mgrDate : PluginSettingsManagerBase :=
  { defaultSettings := [("when", .vDate "1970-01-01T00:00:00.000Z")]
    validators := [] }

/-- The state of mgrPlain after a successful edit setting retries to 4. -/
def editedState : ManagerState :=
  (edit mgrPlain (constructState mgrPlain)
    (fun props => (setEntry props "retries" (.vNum 4), none))).state

/-- The first saveToFile call after the edit. -/
def firstSave : SaveOutcome := saveToFile mgrPlain editedState

/-- The second saveToFile call, with no edit in between. -/
def secondSave : SaveOutcome := saveToFile mgrPlain firstSave.state

/-! Basic lemmas about property lists. -/

theorem lookupProp_setEntry_self {α : Type} (l : List (String × α)) (k : String) (v : α) :
    lookupProp (setEntry l k v) k = some v := by
  induction l with
  | nil => simp [setEntry, lookupProp]
  | cons kv rest ih =>
      obtain ⟨k2, w⟩ := kv
      by_cases h : k2 = k
      · simp [setEntry, h, lookupProp]
      · simp [setEntry, h, lookupProp, ih]

theorem lookupProp_setEntry_ne {α : Type} (l : List (String × α)) (k k2 : String) (v : α)
    (h : k2 ≠ k) : lookupProp (setEntry l k v) k2 = lookupProp l k2 := by
  induction l with
  | nil => simp [setEntry, lookupProp, Ne.symm h]
  | cons kv rest ih =>
      obtain ⟨k3, w⟩ := kv
      by_cases h3 : k3 = k
      · subst h3
        simp [setEntry, lookupProp, Ne.symm h]
      · simp only [setEntry, if_neg h3, lookupProp]
        by_cases h4 : k3 = k2
        · simp [h4]
        · simp [h4, ih]

theorem lookupProp_eq_none_of_not_mem {α : Type} (l : List (String × α)) (k : String)
    (h : k ∉ keysOf l) : lookupProp l k = none := by
  induction l with
  | nil => rfl
  | cons kv rest ih =>
      obtain ⟨k2, w⟩ := kv
      simp only [keysOf, List.map_cons, List.mem_cons] at h
      push_neg at h
      simp [lookupProp, Ne.symm h.1, ih (by simpa [keysOf] using h.2)]

theorem lookupProp_isSome_of_mem {α : Type} (l : List (String × α)) (k : String)
    (h : k ∈ keysOf l) : ∃ v, lookupProp l k = some v := by
  induction l with
  | nil => simp [keysOf] at h
  | cons kv rest ih =>
      obtain ⟨k2, w⟩ := kv
      by_cases h2 : k2 = k
      · exact ⟨w, by simp [lookupProp, h2]⟩
      · simp only [keysOf, List.map_cons, List.mem_cons] at h
        rcases h with h | h
        · exact absurd h.symm h2
        · simpa [lookupProp, h2] using ih (by simpa [keysOf] using h)

theorem keysOf_setEntry_of_mem {α : Type} (l : List (String × α)) (k : String) (v : α)
    (h : k ∈ keysOf l) : keysOf (setEntry l k v) = keysOf l := by
  induction l with
  | nil => simp [keysOf] at h
  | cons kv rest ih =>
      obtain ⟨k2, w⟩ := kv
      by_cases h2 : k2 = k
      · simp [setEntry, h2, keysOf]
      · simp only [keysOf, List.map_cons, List.mem_cons] at h
        rcases h with h | h
        · exact absurd h.symm h2
        · simp only [setEntry, if_neg h2, keysOf, List.map_cons, List.cons.injEq, true_and]
          exact ih (by simpa [keysOf] using h)

theorem keysOf_setEntry_of_not_mem {α : Type} (l : List (String × α)) (k : String) (v : α)
    (h : k ∉ keysOf l) : keysOf (setEntry l k v) = keysOf l ++ [k] := by
  induction l with
  | nil => simp [setEntry, keysOf]
  | cons kv rest ih =>
      obtain ⟨k2, w⟩ := kv
      simp only [keysOf, List.map_cons, List.mem_cons] at h
      push_neg at h
      simp only [setEntry, if_neg (Ne.symm h.1), keysOf, List.map_cons, List.cons_append,
        List.cons.injEq, true_and]
      exact ih (by simpa [keysOf] using h.2)

theorem getProp_setPropV_ne (s : Value) (k k2 : String) (v : Value) (h : k2 ≠ k) :
    getProp (setPropV s k v) k2 = getProp s k2 := by
  cases s <;> simp [setPropV, getProp, asProps, lookupProp_setEntry_ne _ _ _ _ h]

/-! Folds writing one entry per property name, used by the load loop, the
edit recompute loop and ensureSafe. -/

/-- Sequential setEntry writes, one per name, with the written value a pure
function of the name. -/
def foldSetE {α : Type} (props : List String) (l : List (String × α)) (f : String → α) :
    List (String × α) :=
  props.foldl (fun acc p => setEntry acc p (f p)) l

/-- Sequential setPropV writes, one per name. -/
def foldSetV (props : List String) (s : Value) (f : String → Value) : Value :=
  props.foldl (fun acc p => setPropV acc p (f p)) s

theorem foldSetV_obj (props : List String) (base : List (String × Value)) (f : String → Value) :
    foldSetV props (.vObj base) f = .vObj (foldSetE props base f) := by
  induction props generalizing base with
  | nil => rfl
  | cons p rest ih => simp [foldSetV, foldSetE, setPropV, List.foldl_cons] at ih ⊢; exact ih _

theorem lookupProp_foldSetE_not_mem {α : Type} (props : List String) (l : List (String × α))
    (f : String → α) (p : String) (h : p ∉ props) :
    lookupProp (foldSetE props l f) p = lookupProp l p := by
  induction props generalizing l with
  | nil => rfl
  | cons q rest ih =>
      simp only [List.mem_cons] at h
      push_neg at h
      simp only [foldSetE, List.foldl_cons]
      rw [show (List.foldl (fun acc p => setEntry acc p (f p)) (setEntry l q (f q)) rest)
            = foldSetE rest (setEntry l q (f q)) f from rfl,
        ih _ h.2, lookupProp_setEntry_ne _ _ _ _ h.1]

theorem lookupProp_foldSetE_mem {α : Type} (props : List String) (l : List (String × α))
    (f : String → α) (p : String) (hnd : props.Nodup) (h : p ∈ props) :
    lookupProp (foldSetE props l f) p = some (f p) := by
  induction props generalizing l with
  | nil => simp at h
  | cons q rest ih =>
      simp only [List.nodup_cons] at hnd
      simp only [foldSetE, List.foldl_cons]
      rcases List.mem_cons.mp h with h | h
      · subst h
        rw [show (List.foldl (fun acc p2 => setEntry acc p2 (f p2)) (setEntry l p (f p)) rest)
              = foldSetE rest (setEntry l p (f p)) f from rfl,
          lookupProp_foldSetE_not_mem _ _ _ _ hnd.1, lookupProp_setEntry_self]
      · exact ih _ hnd.2 h

theorem keysOf_foldSetE_of_sub {α : Type} (props : List String) (l : List (String × α))
    (f : String → α) (h : ∀ q ∈ props, q ∈ keysOf l) :
    keysOf (foldSetE props l f) = keysOf l := by
  induction props generalizing l with
  | nil => rfl
  | cons q rest ih =>
      simp only [foldSetE, List.foldl_cons]
      rw [show (List.foldl (fun acc p => setEntry acc p (f p)) (setEntry l q (f q)) rest)
            = foldSetE rest (setEntry l q (f q)) f from rfl]
      rw [ih _ (fun r hr => by
        rw [keysOf_setEntry_of_mem _ _ _ (h q (List.mem_cons_self q rest))]
        exact h r (List.mem_cons_of_mem q hr))]
      exact keysOf_setEntry_of_mem _ _ _ (h q (List.mem_cons_self q rest))

theorem keysOf_foldSetE_of_fresh {α : Type} (props : List String) (l : List (String × α))
    (f : String → α) (hnd : props.Nodup) (h : ∀ q ∈ props, q ∉ keysOf l) :
    keysOf (foldSetE props l f) = keysOf l ++ props := by
  induction props generalizing l with
  | nil => simp [foldSetE]
  | cons q rest ih =>
      simp only [List.nodup_cons] at hnd
      simp only [foldSetE, List.foldl_cons]
      rw [show (List.foldl (fun acc p => setEntry acc p (f p)) (setEntry l q (f q)) rest)
            = foldSetE rest (setEntry l q (f q)) f from rfl]
      rw [ih _ hnd.2 (fun r hr => by
        rw [keysOf_setEntry_of_not_mem _ _ _ (h q (List.mem_cons_self q rest))]
        simp only [List.mem_append, List.mem_singleton]
        push_neg
        exact ⟨h r (List.mem_cons_of_mem q hr), fun e => hnd.1 (e ▸ hr)⟩)]
      rw [keysOf_setEntry_of_not_mem _ _ _ (h q (List.mem_cons_self q rest))]
      simp


/-! Component separation lemmas for the manager loops. -/

theorem applyLoadUpdates_settings (m : PluginSettingsManagerBase) (ps : Value)
    (vr : List (String × String)) (props : List String) : ∀ (w : Wrapper),
    (applyLoadUpdates m ps vr w props).settings =
      foldSetV props w.settings (fun p => getProp ps p) := by
  induction props with
  | nil => intro w; rfl
  | cons q rest ih =>
      intro w
      simp only [applyLoadUpdates, List.foldl_cons, foldSetV] at ih ⊢
      exact ih _

theorem applyLoadUpdates_safe (m : PluginSettingsManagerBase) (ps : Value)
    (vr : List (String × String)) (props : List String) : ∀ (w : Wrapper),
    (applyLoadUpdates m ps vr w props).safeSettings =
      foldSetV props w.safeSettings
        (fun p => if truthyMsg (lookupProp vr p) then getProp (.vObj m.defaultSettings) p
                  else getProp ps p) := by
  induction props with
  | nil => intro w; rfl
  | cons q rest ih =>
      intro w
      simp only [applyLoadUpdates, List.foldl_cons, foldSetV] at ih ⊢
      exact ih _

theorem applyLoadUpdates_msgs (m : PluginSettingsManagerBase) (ps : Value)
    (vr : List (String × String)) (props : List String) : ∀ (w : Wrapper),
    (applyLoadUpdates m ps vr w props).validationMessages =
      foldSetE props w.validationMessages (fun p => (lookupProp vr p).getD "") := by
  induction props with
  | nil => intro w; rfl
  | cons q rest ih =>
      intro w
      simp only [applyLoadUpdates, List.foldl_cons, foldSetE] at ih ⊢
      exact ih _

theorem recomputeFold_settings (m : PluginSettingsManagerBase)
    (vr : List (String × String)) (props : List String) : ∀ (w : Wrapper),
    (recomputeFold m vr w props).settings = w.settings := by
  induction props with
  | nil => intro w; rfl
  | cons q rest ih =>
      intro w
      simp only [recomputeFold, List.foldl_cons] at ih ⊢
      exact ih _

theorem recomputeFold_msgs (m : PluginSettingsManagerBase)
    (vr : List (String × String)) (props : List String) : ∀ (w : Wrapper),
    (recomputeFold m vr w props).validationMessages =
      foldSetE props w.validationMessages (fun p => (lookupProp vr p).getD "") := by
  induction props with
  | nil => intro w; rfl
  | cons q rest ih =>
      intro w
      simp only [recomputeFold, List.foldl_cons, foldSetE] at ih ⊢
      exact ih _

theorem recomputeFold_safe (m : PluginSettingsManagerBase)
    (vr : List (String × String)) (props : List String) : ∀ (w : Wrapper),
    (recomputeFold m vr w props).safeSettings =
      foldSetV props w.safeSettings
        (fun p => if (lookupProp vr p).getD "" = "" then getProp w.settings p
                  else getProp (.vObj m.defaultSettings) p) := by
  induction props with
  | nil => intro w; rfl
  | cons q rest ih =>
      intro w
      simp only [recomputeFold, List.foldl_cons, foldSetV] at ih ⊢
      rw [ih]

theorem rawParseFold_settings (m : PluginSettingsManagerBase)
    (entries : List (String × Value)) : ∀ (acc : ParseResult),
    (rawParseFold m entries acc).settings =
      entries.foldl
        (fun s kv => if isValidPropertyName m kv.1 then setPropV s kv.1 kv.2 else s)
        acc.settings := by
  induction entries with
  | nil => intro acc; rfl
  | cons kv rest ih =>
      intro acc
      simp only [rawParseFold, List.foldl_cons] at ih ⊢
      by_cases hv : isValidPropertyName m kv.1 = true
      · simp only [hv, if_true] at *
        exact ih _
      · simp only [Bool.not_eq_true] at hv
        simp only [hv, Bool.false_eq_true, if_false] at *
        exact ih _

theorem rawParseFold_warnings_mono (m : PluginSettingsManagerBase)
    (entries : List (String × Value)) : ∀ (acc : ParseResult) (msg : String),
    msg ∈ acc.warnings → msg ∈ (rawParseFold m entries acc).warnings := by
  induction entries with
  | nil => intro acc msg h; exact h
  | cons kv rest ih =>
      intro acc msg h
      simp only [rawParseFold, List.foldl_cons] at ih ⊢
      by_cases hv : isValidPropertyName m kv.1 = true
      · simp only [hv, if_true]
        apply ih
        by_cases ht : typeofV kv.2 = typeofV (getProp (.vObj m.defaultSettings) kv.1)
        · simpa [ht] using h
        · simp [ht, List.mem_append]
          exact Or.inl h
      · simp only [Bool.not_eq_true] at hv
        simp only [hv, Bool.false_eq_true, if_false]
        apply ih
        simp [List.mem_append]
        exact Or.inl h

theorem rawParseFold_unknown_warning (m : PluginSettingsManagerBase)
    (entries : List (String × Value)) : ∀ (acc : ParseResult) (k : String) (v : Value),
    (k, v) ∈ entries → isValidPropertyName m k = false →
    ("Unknown property: " ++ k) ∈ (rawParseFold m entries acc).warnings := by
  induction entries with
  | nil => intro acc k v h _; simp at h
  | cons kv rest ih =>
      intro acc k v h hk
      rcases List.mem_cons.mp h with h | h
      · subst h
        simp only [rawParseFold, List.foldl_cons, hk, Bool.false_eq_true, if_false]
        apply rawParseFold_warnings_mono
        simp [List.mem_append]
      · simp only [rawParseFold, List.foldl_cons]
        by_cases hv : isValidPropertyName m kv.1 = true
        · simp only [hv, if_true]
          exact ih _ k v h hk
        · simp only [Bool.not_eq_true] at hv
          simp only [hv, Bool.false_eq_true, if_false]
          exact ih _ k v h hk

/-! Lemmas about validate and ensureSafe. -/

theorem validateFold_lookup_none (settings : Value) (p : String)
    (l : List (String × (Value → Value → String))) : ∀ (acc : List (String × String)),
    (∀ kv ∈ l, kv.1 ≠ p) → lookupProp acc p = none →
    lookupProp (validateFold settings l acc) p = none := by
  induction l with
  | nil => intro acc _ hacc; exact hacc
  | cons kv rest ih =>
      intro acc hl hacc
      simp only [validateFold, List.foldl_cons] at ih ⊢
      have hne : kv.1 ≠ p := hl kv (List.mem_cons_self kv rest)
      have hrest : ∀ kv2 ∈ rest, kv2.1 ≠ p := fun kv2 h2 => hl kv2 (List.mem_cons_of_mem kv h2)
      by_cases hz : kv.2 (getProp settings kv.1) settings = ""
      · simpa [hz] using ih acc hrest hacc
      · simpa [hz] using ih _ hrest (by rw [lookupProp_setEntry_ne _ _ _ _ (Ne.symm hne)]; exact hacc)

theorem validate_lookup_none (m : PluginSettingsManagerBase) (settings : Value) (p : String)
    (h : p ∉ keysOf m.validators) : lookupProp (validate m settings) p = none := by
  apply validateFold_lookup_none
  · intro kv hkv he
    exact h (he ▸ List.mem_map_of_mem Prod.fst hkv)
  · rfl

theorem ensureSafeFold_getProp_none (m : PluginSettingsManagerBase)
    (vr : List (String × String)) (p : String) (hp : lookupProp vr p = none)
    (props : List String) : ∀ (s : Value),
    getProp (ensureSafeFold m vr s props) p = getProp s p := by
  induction props with
  | nil => intro s; rfl
  | cons q rest ih =>
      intro s
      simp only [ensureSafeFold, List.foldl_cons] at ih ⊢
      by_cases hq : q = p
      · subst hq
        simp [hp, truthyMsg] at *
        exact ih s
      · by_cases ht : truthyMsg (lookupProp vr q) = true
        · simp only [ht, if_true]
          rw [ih _, getProp_setPropV_ne _ _ _ _ (Ne.symm hq)]
        · simp only [Bool.not_eq_true] at ht
          simp only [ht, Bool.false_eq_true, if_false]
          exact ih s

/-! Unfolding lemmas for loadFromFile. -/

theorem loadFromFile_nullish (m : PluginSettingsManagerBase) (data : Value)
    (h : isNullish data = true) :
    loadFromFile m data =
      { state := constructState m, writes := [], warnings := [], errors := [] } := by
  simp [loadFromFile, h]

theorem loadFromFile_not_object (m : PluginSettingsManagerBase) (data : Value)
    (h1 : isNullish data = false) (h2 : typeofV data ≠ "object") :
    loadFromFile m data =
      { state := constructState m, writes := [], warnings := []
        errors := ["Invalid settings from data.json. Expected Object, got: " ++ typeofV data] } := by
  simp [loadFromFile, h1, h2]

theorem loadFromFile_object_state (m : PluginSettingsManagerBase) (data : Value)
    (h1 : isNullish data = false) (h2 : typeofV data = "object") :
    (loadFromFile m data).state =
      { currentSettingsWrapper := loadedCurrentWrapper m data
        lastSavedSettingsWrapper := cloneSettingsWrapper m (loadedCurrentWrapper m data) } := by
  simp [loadFromFile, h1, h2, loadedCurrentWrapper, constructState]

theorem loadFromFile_object_current (m : PluginSettingsManagerBase) (data : Value)
    (h1 : isNullish data = false) (h2 : typeofV data = "object") :
    (loadFromFile m data).state.currentSettingsWrapper = loadedCurrentWrapper m data := by
  rw [loadFromFile_object_state m data h1 h2]

theorem loadFromFile_object_writes (m : PluginSettingsManagerBase) (data : Value)
    (h1 : isNullish data = false) (h2 : typeofV data = "object") :
    (loadFromFile m data).writes =
      (if deepEqual (settingsToRawRecord m (loadedCurrentWrapper m data).settings) data then []
       else [saveToFileImplRecord m
         { currentSettingsWrapper := loadedCurrentWrapper m data
           lastSavedSettingsWrapper := cloneSettingsWrapper m (loadedCurrentWrapper m data) }]) := by
  simp [loadFromFile, h1, h2, loadedCurrentWrapper, constructState]

theorem loadFromFile_object_warnings (m : PluginSettingsManagerBase) (data : Value)
    (h1 : isNullish data = false) (h2 : typeofV data = "object") :
    (loadFromFile m data).warnings = (rawRecordToSettings m data).warnings := by
  simp [loadFromFile, h1, h2]

/-! Lemmas about overrideBase, the canonical form of the parse loop. -/

theorem keysOf_overrideBase {α : Type} (base record : List (String × α)) :
    keysOf (overrideBase base record) = keysOf base := by
  simp [keysOf, overrideBase, List.map_map, Function.comp]

theorem lookupProp_overrideBase {α : Type} (base record : List (String × α)) (p : String) :
    lookupProp (overrideBase base record) p =
      (lookupProp base p).map (fun d => (lookupProp record p).getD d) := by
  induction base with
  | nil => rfl
  | cons kv rest ih =>
      obtain ⟨k, d⟩ := kv
      by_cases h : k = p
      · simp [overrideBase, lookupProp, h]
      · simpa [overrideBase, lookupProp, h] using ih

theorem overrideBase_nil {α : Type} (base : List (String × α)) :
    overrideBase base [] = base := by
  induction base with
  | nil => rfl
  | cons kv rest ih => simp [overrideBase, lookupProp]

theorem overrideBase_cons_not_mem {α : Type} (base : List (String × α)) (k : String) (v : α)
    (record : List (String × α)) (h : k ∉ keysOf base) :
    overrideBase base ((k, v) :: record) = overrideBase base record := by
  induction base with
  | nil => rfl
  | cons kv rest ih =>
      obtain ⟨k2, d⟩ := kv
      simp only [keysOf, List.map_cons, List.mem_cons] at h
      push_neg at h
      simp only [overrideBase, List.map_cons, List.cons.injEq] at ih ⊢
      constructor
      · simp [lookupProp, h.1]
      · exact ih (by simpa [keysOf] using h.2)

theorem overrideBase_setEntry {α : Type} (base : List (String × α)) (k : String) (v : α)
    (record : List (String × α)) (hmem : k ∈ keysOf base) (hnd : (keysOf base).Nodup)
    (hrec : lookupProp record k = none) :
    overrideBase (setEntry base k v) record = overrideBase base ((k, v) :: record) := by
  induction base with
  | nil => simp [keysOf] at hmem
  | cons kv rest ih =>
      obtain ⟨k2, d⟩ := kv
      simp only [keysOf, List.map_cons, List.nodup_cons] at hnd
      by_cases h : k2 = k
      · subst h
        rw [show setEntry ((k2, d) :: rest) k2 v = (k2, v) :: rest by simp [setEntry]]
        simp only [overrideBase, List.map_cons, List.cons.injEq]
        constructor
        · simp [lookupProp, hrec]
        · have : ∀ kv2 ∈ rest, (kv2.1, (lookupProp ((k2, v) :: record) kv2.1).getD kv2.2)
              = (kv2.1, (lookupProp record kv2.1).getD kv2.2) := by
            intro kv2 hkv2
            have : kv2.1 ≠ k2 := by
              intro e
              exact hnd.1 (e ▸ List.mem_map_of_mem Prod.fst hkv2)
            simp [lookupProp, Ne.symm this]
          exact (List.map_congr_left this).symm
      · simp only [keysOf, List.map_cons, List.mem_cons] at hmem
        rcases hmem with hmem | hmem
        · exact absurd hmem.symm h
        · simp only [setEntry, if_neg h, overrideBase, List.map_cons, List.cons.injEq]
          constructor
          · simp [lookupProp, Ne.symm (show k2 ≠ k from h)]
          · exact ih (by simpa [keysOf] using hmem) hnd.2

theorem parseSettings_eq_overrideBase (m : PluginSettingsManagerBase)
    (record : List (String × Value)) : ∀ (base : List (String × Value)),
    (∀ k, isValidPropertyName m k = true ↔ k ∈ keysOf base) →
    (keysOf base).Nodup → (keysOf record).Nodup →
    record.foldl
      (fun s kv => if isValidPropertyName m kv.1 then setPropV s kv.1 kv.2 else s)
      (.vObj base) = .vObj (overrideBase base record) := by
  induction record with
  | nil =>
      intro base _ _ _
      simp [overrideBase_nil]
  | cons kv record2 ih =>
      intro base hval hndb hndr
      obtain ⟨k, v⟩ := kv
      simp only [keysOf, List.map_cons, List.nodup_cons] at hndr
      by_cases hv : isValidPropertyName m k = true
      · have hkb : k ∈ keysOf base := (hval k).mp hv
        simp only [List.foldl_cons, hv, if_true]
        rw [show setPropV (Value.vObj base) k v = Value.vObj (setEntry base k v) from rfl]
        rw [ih (setEntry base k v)
            (fun k2 => by rw [keysOf_setEntry_of_mem base k v hkb]; exact hval k2)
            (by rw [keysOf_setEntry_of_mem base k v hkb]; exact hndb)
            (by simpa [keysOf] using hndr.2)]
        rw [overrideBase_setEntry base k v record2 hkb hndb
            (lookupProp_eq_none_of_not_mem _ _ (by simpa [keysOf] using hndr.1))]
      · have hkb : k ∉ keysOf base := fun hmem => hv ((hval k).mpr hmem)
        simp only [Bool.not_eq_true] at hv
        simp only [List.foldl_cons, hv, Bool.false_eq_true, if_false]
        rw [ih base hval hndb (by simpa [keysOf] using hndr.2)]
        rw [overrideBase_cons_not_mem base k v record2 hkb]

theorem lookupProp_map_pair_mem {α : Type} (q : List String) (g : String → α) (p : String)
    (h : p ∈ q) : lookupProp (q.map (fun x => (x, g x))) p = some (g p) := by
  induction q with
  | nil => simp at h
  | cons a rest ih =>
      by_cases ha : a = p
      · subst ha; simp [lookupProp]
      · rcases List.mem_cons.mp h with h | h
        · exact absurd h.symm ha
        · simpa [lookupProp, ha] using ih h

theorem lookupProp_map_pair_not_mem {α : Type} (q : List String) (g : String → α) (p : String)
    (h : p ∉ q) : lookupProp (q.map (fun x => (x, g x))) p = none := by
  induction q with
  | nil => rfl
  | cons a rest ih =>
      simp only [List.mem_cons] at h
      push_neg at h
      simpa [lookupProp, Ne.symm h.1] using ih h.2

theorem keysOf_map_pair {α : Type} (q : List String) (g : String → α) :
    keysOf (q.map (fun x => (x, g x))) = q := by
  induction q with
  | nil => rfl
  | cons a rest ih => simpa [keysOf] using ih

/-! Lemmas about the transformer chain. -/

theorem fwdV_obj (props : List (String × Value)) :
    fwdV (.vObj props) = .vObj (fwdProps props) := rfl

theorem fwdProps_eq (l : List (String × Value)) :
    fwdProps l = (l.filter (fun kv => !isPrivateKey kv.1)).map (fun kv => (kv.1, fwdV kv.2)) := by
  induction l with
  | nil => rfl
  | cons kv rest ih =>
      obtain ⟨k, v⟩ := kv
      by_cases h : isPrivateKey k = true
      · simp [fwdProps, h, List.filter_cons, ih]
      · simp only [Bool.not_eq_true] at h
        simp [fwdProps, h, List.filter_cons, ih]

mutual

theorem fwdV_idem : ∀ (v : Value), fwdV (fwdV v) = fwdV v
  | .vUndefined => rfl
  | .vNull => rfl
  | .vBool _ => rfl
  | .vNum _ => rfl
  | .vStr _ => rfl
  | .vPromise _ => rfl
  | .vDate iso => by
      rw [show fwdV (.vDate iso) = .vObj [("$date", .vStr iso)] from rfl, fwdV_obj]
      simp [fwdProps, isPrivateKey, fwdV]
  | .vDuration iso => by
      rw [show fwdV (.vDuration iso) = .vObj [("$duration", .vStr iso)] from rfl, fwdV_obj]
      simp [fwdProps, isPrivateKey, fwdV]
  | .vArr elems => by
      rw [show fwdV (.vArr elems) = .vArr (fwdList elems) from rfl,
        show fwdV (.vArr (fwdList elems)) = .vArr (fwdList (fwdList elems)) from rfl]
      exact congrArg Value.vArr (fwdList_idem elems)
  | .vObj props => by
      rw [fwdV_obj, fwdV_obj]
      exact congrArg Value.vObj (fwdProps_idem props)

theorem fwdProps_idem : ∀ (l : List (String × Value)), fwdProps (fwdProps l) = fwdProps l
  | [] => rfl
  | (k, v) :: rest => by
      by_cases h : isPrivateKey k = true
      · simp [fwdProps, h, fwdProps_idem rest]
      · simp only [Bool.not_eq_true] at h
        simp [fwdProps, h, fwdV_idem v, fwdProps_idem rest]

theorem fwdList_idem : ∀ (l : List Value), fwdList (fwdList l) = fwdList l
  | [] => rfl
  | v :: rest => by
      simp [fwdList, fwdV_idem v, fwdList_idem rest]

end

mutual

theorem bwdV_fwdV : ∀ (v : Value), supportedV v = true → bwdV (fwdV v) = stripPrivate v
  | .vUndefined, _ => rfl
  | .vNull, _ => rfl
  | .vBool _, _ => rfl
  | .vNum _, _ => rfl
  | .vStr _, _ => rfl
  | .vPromise _, _ => rfl
  | .vDate iso, _ => by
      rw [show fwdV (.vDate iso) = .vObj [("$date", .vStr iso)] from rfl]
      simp [bwdV, decodeTagged, stripPrivate]
  | .vDuration iso, _ => by
      rw [show fwdV (.vDuration iso) = .vObj [("$duration", .vStr iso)] from rfl]
      simp [bwdV, decodeTagged, stripPrivate]
  | .vArr elems, h => by
      rw [show fwdV (.vArr elems) = .vArr (fwdList elems) from rfl,
        show bwdV (.vArr (fwdList elems)) = .vArr (bwdList (fwdList elems)) from rfl,
        show stripPrivate (.vArr elems) = .vArr (stripList elems) from rfl]
      exact congrArg Value.vArr (bwdList_fwdList elems (by simpa [supportedV] using h))
  | .vObj props, h => by
      simp only [supportedV, Bool.and_eq_true, Option.isNone_iff_eq_none] at h
      rw [fwdV_obj]
      rw [show bwdV (.vObj (fwdProps props))
            = (match decodeTagged (fwdProps props) with
               | some v => v
               | none => .vObj (bwdProps (fwdProps props))) from rfl]
      rw [h.1]
      rw [show stripPrivate (.vObj props) = .vObj (stripProps props) from rfl]
      exact congrArg Value.vObj (bwdProps_fwdProps props h.2)

theorem bwdProps_fwdProps : ∀ (l : List (String × Value)), supportedProps l = true →
    bwdProps (fwdProps l) = stripProps l
  | [], _ => rfl
  | (k, v) :: rest, h => by
      simp only [supportedProps, Bool.and_eq_true] at h
      by_cases hp : isPrivateKey k = true
      · simp [fwdProps, hp, stripProps, bwdProps_fwdProps rest h.2]
      · simp only [Bool.not_eq_true] at hp
        simp [fwdProps, hp, stripProps, bwdProps, bwdV_fwdV v h.1, bwdProps_fwdProps rest h.2]

theorem bwdList_fwdList : ∀ (l : List Value), supportedList l = true →
    bwdList (fwdList l) = stripList l
  | [], _ => rfl
  | v :: rest, h => by
      simp only [supportedList, Bool.and_eq_true] at h
      simp [fwdList, bwdList, stripList, bwdV_fwdV v h.1, bwdList_fwdList rest h.2]

end

/-! The self-healing argument: a record in the image of the forward
serialization reloads without any write-back. -/

theorem isValidPropertyName_iff (m : PluginSettingsManagerBase) (k : String) :
    isValidPropertyName m k = true ↔ k ∈ propertyNames m := by
  simp [isValidPropertyName, List.elem_iff]

theorem getProp_vObj (l : List (String × Value)) (p : String) :
    getProp (.vObj l) p = (lookupProp l p).getD .vUndefined := rfl

theorem getProp_foldSetV_obj_mem (props : List String) (base : List (String × Value))
    (f : String → Value) (p : String) (hnd : props.Nodup) (hp : p ∈ props) :
    getProp (foldSetV props (.vObj base) f) p = f p := by
  rw [foldSetV_obj, getProp_vObj, lookupProp_foldSetE_mem props base f p hnd hp]
  rfl

theorem settingsToRawRecord_def (m : PluginSettingsManagerBase) (s : Value) :
    settingsToRawRecord m s =
      fwdV (.vObj ((propertyNames m).map (fun propertyName => (propertyName, getProp s propertyName)))) := rfl

theorem fwdV_obj_map (q : List String) (u : String → Value) :
    fwdV (.vObj (q.map (fun p => (p, u p)))) =
      .vObj ((q.filter (fun p => !isPrivateKey p)).map (fun p => (p, fwdV (u p)))) := by
  rw [fwdV_obj, fwdProps_eq, List.filter_map, List.map_map]
  rfl

theorem parsed_fwd_image (m : PluginSettingsManagerBase) (hnd : (propertyNames m).Nodup)
    (u : String → Value) :
    (rawRecordToSettings m
        (.vObj (((propertyNames m).filter (fun p => !isPrivateKey p)).map
          (fun p => (p, fwdV (u p)))))).settings =
      .vObj (overrideBase m.defaultSettings
        (((propertyNames m).filter (fun p => !isPrivateKey p)).map (fun p => (p, fwdV (u p))))) := by
  rw [rawRecordToSettings, rawParseFold_settings]
  rw [show entriesOf (.vObj (((propertyNames m).filter (fun p => !isPrivateKey p)).map
        (fun p => (p, fwdV (u p)))))
      = ((propertyNames m).filter (fun p => !isPrivateKey p)).map (fun p => (p, fwdV (u p))) from rfl]
  exact parseSettings_eq_overrideBase m _ m.defaultSettings
    (fun k => isValidPropertyName_iff m k)
    hnd
    (by rw [keysOf_map_pair]; exact hnd.filter _)

theorem loadFromFile_fwd_image_writes_nil (m : PluginSettingsManagerBase)
    (hnd : (propertyNames m).Nodup) (u : String → Value) :
    (loadFromFile m (fwdV (.vObj ((propertyNames m).map (fun p => (p, u p)))))).writes = [] := by
  rw [fwdV_obj_map]
  set kept := (propertyNames m).filter (fun p => !isPrivateKey p) with hkept
  set wprops := kept.map (fun p => (p, fwdV (u p))) with hwprops
  have h1 : isNullish (.vObj wprops) = false := rfl
  have h2 : typeofV (.vObj wprops) = "object" := rfl
  rw [loadFromFile_object_writes m _ h1 h2]
  have hparsed : (rawRecordToSettings m (.vObj wprops)).settings =
      .vObj (overrideBase m.defaultSettings wprops) := by
    rw [hwprops, hkept]
    exact parsed_fwd_image m hnd u
  have hcurset : ∀ p ∈ propertyNames m,
      getProp (loadedCurrentWrapper m (.vObj wprops)).settings p =
        getProp (rawRecordToSettings m (.vObj wprops)).settings p := by
    intro p hp
    rw [loadedCurrentWrapper, applyLoadUpdates_settings]
    rw [show (createDefaultSettingsWrapper m).settings = .vObj m.defaultSettings from rfl]
    exact getProp_foldSetV_obj_mem _ _ _ p hnd hp
  have hparsedval : ∀ p ∈ propertyNames m,
      getProp (rawRecordToSettings m (.vObj wprops)).settings p =
        (if p ∈ kept then fwdV (u p) else getProp (.vObj m.defaultSettings) p) := by
    intro p hp
    rw [hparsed, getProp_vObj, lookupProp_overrideBase]
    obtain ⟨d, hd⟩ := lookupProp_isSome_of_mem m.defaultSettings p hp
    rw [hd]
    by_cases hk : p ∈ kept
    · rw [hwprops, lookupProp_map_pair_mem kept _ p hk]
      simp [hk]
    · rw [hwprops, lookupProp_map_pair_not_mem kept _ p hk]
      simp [hk, getProp_vObj, hd]
  have hmap : ((propertyNames m).map (fun propertyName => (propertyName,
        getProp (loadedCurrentWrapper m (.vObj wprops)).settings propertyName)))
      = (propertyNames m).map (fun propertyName => (propertyName,
          if propertyName ∈ kept then fwdV (u propertyName)
          else getProp (.vObj m.defaultSettings) propertyName)) := by
    apply List.map_congr_left
    intro p hp
    show (p, getProp (loadedCurrentWrapper m (.vObj wprops)).settings p) = _
    rw [hcurset p hp, hparsedval p hp]
  have hser : settingsToRawRecord m (loadedCurrentWrapper m (.vObj wprops)).settings
      = .vObj wprops := by
    rw [settingsToRawRecord_def, hmap]
    rw [fwdV_obj_map (propertyNames m)
      (fun propertyName => if propertyName ∈ kept then fwdV (u propertyName)
       else getProp (.vObj m.defaultSettings) propertyName)]
    rw [hwprops]
    congr 1
    apply List.map_congr_left
    intro p hp
    rw [← hkept] at hp
    simp only [hp, if_true]
    rw [fwdV_idem]
  rw [hser, deepEqual_self]
  simp

/-! The safe-value invariant. -/

theorem isObjV_exists (s : Value) (h : isObjV s = true) : ∃ l, s = .vObj l := by
  cases s <;> simp_all [isObjV]

theorem safeInvariant_createDefault (m : PluginSettingsManagerBase) :
    safeInvariant m (createDefaultSettingsWrapper m) := by
  intro p hp
  simp [createDefaultSettingsWrapper, truthyMsg, lookupProp]

theorem safeInvariant_applyLoadUpdates (m : PluginSettingsManagerBase)
    (hnd : (propertyNames m).Nodup) (ps : Value) (vr : List (String × String)) :
    safeInvariant m
      (applyLoadUpdates m ps vr (createDefaultSettingsWrapper m) (propertyNames m)) := by
  intro p hp
  rw [applyLoadUpdates_safe, applyLoadUpdates_msgs, applyLoadUpdates_settings]
  rw [show (createDefaultSettingsWrapper m).safeSettings = .vObj m.defaultSettings from rfl,
    show (createDefaultSettingsWrapper m).settings = .vObj m.defaultSettings from rfl,
    show (createDefaultSettingsWrapper m).validationMessages = ([] : List (String × String)) from rfl]
  rw [getProp_foldSetV_obj_mem _ _ _ p hnd hp, getProp_foldSetV_obj_mem _ _ _ p hnd hp,
    lookupProp_foldSetE_mem _ _ _ p hnd hp]
  cases hvr : lookupProp vr p with
  | none => simp [truthyMsg]
  | some msg =>
      by_cases hmsg : msg = ""
      · simp [truthyMsg, hmsg]
      · simp [truthyMsg, hmsg]

theorem safeInvariant_loadedCurrentWrapper (m : PluginSettingsManagerBase)
    (hnd : (propertyNames m).Nodup) (data : Value) :
    safeInvariant m (loadedCurrentWrapper m data) :=
  safeInvariant_applyLoadUpdates m hnd _ _

theorem safeInvariant_loadFromFile (m : PluginSettingsManagerBase)
    (hnd : (propertyNames m).Nodup) (data : Value) :
    safeInvariant m (loadFromFile m data).state.currentSettingsWrapper := by
  by_cases h1 : isNullish data = true
  · rw [loadFromFile_nullish m data h1]
    exact safeInvariant_createDefault m
  · simp only [Bool.not_eq_true] at h1
    by_cases h2 : typeofV data = "object"
    · rw [loadFromFile_object_state m data h1 h2]
      exact safeInvariant_loadedCurrentWrapper m hnd data
    · rw [loadFromFile_not_object m data h1 h2]
      exact safeInvariant_createDefault m

theorem safeInvariant_recompute (m : PluginSettingsManagerBase)
    (hnd : (propertyNames m).Nodup) (w : Wrapper) (vr : List (String × String))
    (hobj : isObjV w.safeSettings = true) :
    safeInvariant m (recomputeFold m vr w (propertyNames m)) := by
  obtain ⟨sl, hsl⟩ := isObjV_exists _ hobj
  intro p hp
  rw [recomputeFold_safe, recomputeFold_msgs, recomputeFold_settings, hsl]
  rw [getProp_foldSetV_obj_mem _ _ _ p hnd hp, lookupProp_foldSetE_mem _ _ _ p hnd hp]
  cases hvr : lookupProp vr p with
  | none => simp [truthyMsg]
  | some msg =>
      by_cases hmsg : msg = ""
      · simp [truthyMsg, hmsg]
      · simp [truthyMsg, hmsg]

set_option maxHeartbeats 1000000 in
theorem edit_state_current (m : PluginSettingsManagerBase) (st : ManagerState)
    (ed : List (String × Value) → List (String × Value) × Option String) :
    (edit m st ed).state.currentSettingsWrapper
      = recomputeFold m (validate m (.vObj (ed (asProps st.currentSettingsWrapper.settings)).1))
          { st.currentSettingsWrapper with
            settings := .vObj (ed (asProps st.currentSettingsWrapper.settings)).1 }
          (propertyNames m) := by
  simp only [edit, recomputeWrapper]

theorem safeInvariant_edit (m : PluginSettingsManagerBase)
    (hnd : (propertyNames m).Nodup) (st : ManagerState)
    (ed : List (String × Value) → List (String × Value) × Option String)
    (hobj : isObjV st.currentSettingsWrapper.safeSettings = true) :
    safeInvariant m (edit m st ed).state.currentSettingsWrapper := by
  rw [edit_state_current]
  exact safeInvariant_recompute m hnd _ _ hobj

theorem setProperty_state (m : PluginSettingsManagerBase) (st : ManagerState)
    (p : String) (v : Value) :
    (setProperty m st p v).state = (edit m st (fun props => (setEntry props p v, none))).state := rfl

/-- C1: Safe-value invariant: in every snapshot at rest (after construction,
after loadFromFile resolves, and after edit or setProperty resolves), for
every property of the fixed property-name list, the safe view holds the
default value exactly when the validation message entry is non-empty, and
the settings view value otherwise, never any third value.  The snapshot is
the current wrapper the manager exposes; the edit and setProperty cases
assume the incoming safe view is an object, as it is in every reachable
state. -/
theorem c1_safe_value_invariant (m : PluginSettingsManagerBase)
    (hnd : (propertyNames m).Nodup) :
    safeInvariant m (constructState m).currentSettingsWrapper
    ∧ (∀ data, safeInvariant m (loadFromFile m data).state.currentSettingsWrapper)
    ∧ (∀ st ed, isObjV st.currentSettingsWrapper.safeSettings = true →
        safeInvariant m (edit m st ed).state.currentSettingsWrapper)
    ∧ (∀ st p v, isObjV st.currentSettingsWrapper.safeSettings = true →
        safeInvariant m (setProperty m st p v).state.currentSettingsWrapper) := by
  refine ⟨safeInvariant_createDefault m, fun data => safeInvariant_loadFromFile m hnd data,
    fun st ed hobj => safeInvariant_edit m hnd st ed hobj, fun st p v hobj => ?_⟩
  rw [setProperty_state]
  exact safeInvariant_edit m hnd st (fun props => (setEntry props p v, none)) hobj

/-- Witness for C1 at the concrete retries manager. -/
theorem c1_safe_value_invariant_witness :
    safeInvariant mgrRetries (constructState mgrRetries).currentSettingsWrapper
    ∧ (∀ data, safeInvariant mgrRetries (loadFromFile mgrRetries data).state.currentSettingsWrapper)
    ∧ (∀ st ed, isObjV st.currentSettingsWrapper.safeSettings = true →
        safeInvariant mgrRetries (edit mgrRetries st ed).state.currentSettingsWrapper)
    ∧ (∀ st p v, isObjV st.currentSettingsWrapper.safeSettings = true →
        safeInvariant mgrRetries (setProperty mgrRetries st p v).state.currentSettingsWrapper) :=
  c1_safe_value_invariant mgrRetries (by decide)

/-- C6: Edit exception safety: for every editor function, including one that
raises after mutating some properties, edit still propagates the raised
exception, keeps the mutated settings, recomputes every validation message
from a fresh validation of the mutated settings, and leaves the three views
of the snapshot consistent per the snapshot-update rule.  The incoming safe
view is assumed to be an object, as it is in every reachable state. -/
theorem c6_edit_exception_safety (m : PluginSettingsManagerBase)
    (hnd : (propertyNames m).Nodup) (st : ManagerState)
    (ed : List (String × Value) → List (String × Value) × Option String)
    (hobj : isObjV st.currentSettingsWrapper.safeSettings = true) :
    (edit m st ed).thrown = (ed (asProps st.currentSettingsWrapper.settings)).2
    ∧ (edit m st ed).state.currentSettingsWrapper.settings
        = .vObj (ed (asProps st.currentSettingsWrapper.settings)).1
    ∧ (∀ p ∈ propertyNames m,
        lookupProp (edit m st ed).state.currentSettingsWrapper.validationMessages p
          = some ((lookupProp
              (validate m (.vObj (ed (asProps st.currentSettingsWrapper.settings)).1)) p).getD ""))
    ∧ safeInvariant m (edit m st ed).state.currentSettingsWrapper := by
  refine ⟨rfl, ?_, ?_, safeInvariant_edit m hnd st ed hobj⟩
  · rw [edit_state_current, recomputeFold_settings]
  · intro p hp
    rw [edit_state_current, recomputeFold_msgs]
    exact lookupProp_foldSetE_mem _ _ _ p hnd hp

/-- Witness for C6: a throwing editor at the concrete retries manager. -/
theorem c6_edit_exception_safety_witness :
    (edit mgrRetries (constructState mgrRetries)
        (fun props => (setEntry props "retries" (.vNum (-1)), some "editor raised"))).thrown
      = ((fun props => (setEntry props "retries" (.vNum (-1)), some "editor raised"))
          (asProps (constructState mgrRetries).currentSettingsWrapper.settings)).2
    ∧ (edit mgrRetries (constructState mgrRetries)
        (fun props => (setEntry props "retries" (.vNum (-1)), some "editor raised"))).state.currentSettingsWrapper.settings
      = .vObj ((fun props => (setEntry props "retries" (.vNum (-1)), some "editor raised"))
          (asProps (constructState mgrRetries).currentSettingsWrapper.settings)).1
    ∧ (∀ p ∈ propertyNames mgrRetries,
        lookupProp (edit mgrRetries (constructState mgrRetries)
            (fun props => (setEntry props "retries" (.vNum (-1)), some "editor raised"))).state.currentSettingsWrapper.validationMessages p
          = some ((lookupProp (validate mgrRetries
              (.vObj ((fun props => (setEntry props "retries" (.vNum (-1)), some "editor raised"))
                (asProps (constructState mgrRetries).currentSettingsWrapper.settings)).1)) p).getD ""))
    ∧ safeInvariant mgrRetries
        (edit mgrRetries (constructState mgrRetries)
          (fun props => (setEntry props "retries" (.vNum (-1)), some "editor raised"))).state.currentSettingsWrapper :=
  c6_edit_exception_safety mgrRetries (by decide) (constructState mgrRetries)
    (fun props => (setEntry props "retries" (.vNum (-1)), some "editor raised")) (by decide)

/-- C7: an absent record (null or undefined) or a non-object record leaves
both wrappers in the freshly constructed default state, performs no write,
and in the malformed non-object case logs an error instead of raising; the
embedding of loadFromFile is a total function, so no exception reaches the
caller. -/
theorem c7_absent_or_malformed (m : PluginSettingsManagerBase) (data : Value)
    (h : data = .vNull ∨ data = .vUndefined ∨ typeofV data ≠ "object") :
    (loadFromFile m data).state.currentSettingsWrapper = createDefaultSettingsWrapper m
    ∧ (loadFromFile m data).state.lastSavedSettingsWrapper = createDefaultSettingsWrapper m
    ∧ (loadFromFile m data).writes = []
    ∧ (data ≠ .vNull → data ≠ .vUndefined → (loadFromFile m data).errors ≠ []) := by
  by_cases hn : isNullish data = true
  · rw [loadFromFile_nullish m data hn]
    refine ⟨rfl, rfl, rfl, ?_⟩
    intro h1 h2
    cases data <;> simp [isNullish] at hn <;> simp_all
  · simp only [Bool.not_eq_true] at hn
    have h2 : typeofV data ≠ "object" := by
      rcases h with h | h | h
      · subst h; simp [isNullish] at hn
      · subst h; simp [isNullish] at hn
      · exact h
    rw [loadFromFile_not_object m data hn h2]
    refine ⟨rfl, rfl, rfl, fun _ _ => by simp⟩

/-- Witness for C7: loading a plain string record. -/
theorem c7_absent_or_malformed_witness :
    (loadFromFile mgrPlain (.vStr "oops")).state.currentSettingsWrapper
        = createDefaultSettingsWrapper mgrPlain
    ∧ (loadFromFile mgrPlain (.vStr "oops")).state.lastSavedSettingsWrapper
        = createDefaultSettingsWrapper mgrPlain
    ∧ (loadFromFile mgrPlain (.vStr "oops")).writes = []
    ∧ ((.vStr "oops" : Value) ≠ .vNull → (.vStr "oops" : Value) ≠ .vUndefined →
        (loadFromFile mgrPlain (.vStr "oops")).errors ≠ []) :=
  c7_absent_or_malformed mgrPlain (.vStr "oops") (by decide)

/-- C8: Unknown-property tolerance: loading a structured record carrying a
property outside the fixed property-name list logs an unknown-property
warning, drops the key, and produces a current snapshot whose key set, in
all three views, is exactly the fixed property-name list. -/
theorem c8_unknown_property_tolerance (m : PluginSettingsManagerBase)
    (hnd : (propertyNames m).Nodup) (props : List (String × Value)) (k : String) (v : Value)
    (hmem : (k, v) ∈ props) (hk : k ∉ propertyNames m) :
    ("Unknown property: " ++ k) ∈ (loadFromFile m (.vObj props)).warnings
    ∧ keysOf (asProps (loadFromFile m (.vObj props)).state.currentSettingsWrapper.settings)
        = propertyNames m
    ∧ keysOf (asProps (loadFromFile m (.vObj props)).state.currentSettingsWrapper.safeSettings)
        = propertyNames m
    ∧ keysOf (loadFromFile m (.vObj props)).state.currentSettingsWrapper.validationMessages
        = propertyNames m := by
  have h1 : isNullish (.vObj props) = false := rfl
  have h2 : typeofV (.vObj props) = "object" := rfl
  have hkb : isValidPropertyName m k = false := by
    cases hbv : isValidPropertyName m k with
    | false => rfl
    | true => exact absurd ((isValidPropertyName_iff m k).mp hbv) hk
  have hsub : ∀ q ∈ propertyNames m, q ∈ keysOf m.defaultSettings := fun q hq => hq
  refine ⟨?_, ?_, ?_, ?_⟩
  · rw [loadFromFile_object_warnings m _ h1 h2]
    rw [show rawRecordToSettings m (.vObj props)
        = rawParseFold m props { settings := .vObj m.defaultSettings, warnings := [] } from rfl]
    exact rawParseFold_unknown_warning m props _ k v hmem hkb
  · rw [loadFromFile_object_current m _ h1 h2]
    rw [loadedCurrentWrapper, applyLoadUpdates_settings]
    rw [show (createDefaultSettingsWrapper m).settings = .vObj m.defaultSettings from rfl]
    rw [foldSetV_obj]
    exact keysOf_foldSetE_of_sub _ _ _ hsub
  · rw [loadFromFile_object_current m _ h1 h2]
    rw [loadedCurrentWrapper, applyLoadUpdates_safe]
    rw [show (createDefaultSettingsWrapper m).safeSettings = .vObj m.defaultSettings from rfl]
    rw [foldSetV_obj]
    exact keysOf_foldSetE_of_sub _ _ _ hsub
  · rw [loadFromFile_object_current m _ h1 h2]
    rw [loadedCurrentWrapper, applyLoadUpdates_msgs]
    rw [show (createDefaultSettingsWrapper m).validationMessages
        = ([] : List (String × String)) from rfl]
    rw [keysOf_foldSetE_of_fresh _ _ _ hnd (fun q _ => by simp [keysOf])]
    rfl

/-- Witness for C8: a record with the extra property doesNotExist. -/
theorem c8_unknown_property_tolerance_witness :
    ("Unknown property: " ++ "doesNotExist")
        ∈ (loadFromFile mgrRetries (.vObj [("doesNotExist", .vNum 1), ("retries", .vNum 5)])).warnings
    ∧ keysOf (asProps (loadFromFile mgrRetries
          (.vObj [("doesNotExist", .vNum 1), ("retries", .vNum 5)])).state.currentSettingsWrapper.settings)
        = propertyNames mgrRetries
    ∧ keysOf (asProps (loadFromFile mgrRetries
          (.vObj [("doesNotExist", .vNum 1), ("retries", .vNum 5)])).state.currentSettingsWrapper.safeSettings)
        = propertyNames mgrRetries
    ∧ keysOf (loadFromFile mgrRetries
          (.vObj [("doesNotExist", .vNum 1), ("retries", .vNum 5)])).state.currentSettingsWrapper.validationMessages
        = propertyNames mgrRetries :=
  c8_unknown_property_tolerance mgrRetries (by decide) [("doesNotExist", .vNum 1), ("retries", .vNum 5)]
    "doesNotExist" (.vNum 1) (by decide) (by decide)

/-- C5: Self-healing write-back: when a loaded structured record does not
deep-equal the reserialization of the settings parsed from it, exactly one
write-back happens during that loadFromFile call, and loading the record
that was written back produces no further write-back. -/
theorem c5_self_healing_write_back (m : PluginSettingsManagerBase)
    (hnd : (propertyNames m).Nodup) (data : Value)
    (hobj : typeofV data = "object") (hnn : isNullish data = false)
    (hdiff : deepEqual (settingsToRawRecord m
        (loadFromFile m data).state.currentSettingsWrapper.settings) data = false) :
    (loadFromFile m data).writes.length = 1
    ∧ ∀ w ∈ (loadFromFile m data).writes, (loadFromFile m w).writes = [] := by
  rw [loadFromFile_object_current m data hnn hobj] at hdiff
  rw [loadFromFile_object_writes m data hnn hobj]
  simp only [hdiff, Bool.false_eq_true, if_false]
  refine ⟨rfl, ?_⟩
  intro w hw
  simp only [List.mem_singleton] at hw
  subst hw
  show (loadFromFile m (fwdV (.vObj ((propertyNames m).map
    (fun p => (p, getProp (wrapperToValue (loadedCurrentWrapper m data)) p)))))).writes = []
  exact loadFromFile_fwd_image_writes_nil m hnd
    (fun p => getProp (wrapperToValue (loadedCurrentWrapper m data)) p)

/-- Witness for C5: loading a record that misses the name property. -/
theorem c5_self_healing_write_back_witness :
    (loadFromFile mgrPlain (.vObj [("retries", .vNum 5)])).writes.length = 1
    ∧ ∀ w ∈ (loadFromFile mgrPlain (.vObj [("retries", .vNum 5)])).writes,
        (loadFromFile mgrPlain w).writes = [] :=
  c5_self_healing_write_back mgrPlain (by decide) (.vObj [("retries", .vNum 5)])
    (by decide) (by decide) (by decide)

/-- C9: Transformer chain round trip: on every supported value shape the
backward transformation of the default chain inverts the forward
transformation up to the removal of private-prefixed properties performed
by the skip-private member. -/
theorem c9_transformer_round_trip (s : Value) (h : supportedV s = true) :
    bwdV (fwdV s) = stripPrivate s :=
  bwdV_fwdV s h

/-- Witness for C9: a nested object with a date, a duration, an array and
private properties at two levels. -/
theorem c9_transformer_round_trip_witness :
    bwdV (fwdV (.vObj
      [("a", .vDate "2024-05-06T07:08:09.000Z"),
       ("_p", .vNum 1),
       ("b", .vObj [("c", .vDuration "PT1S"), ("_q", .vStr "hidden")]),
       ("l", .vArr [.vNum 1, .vStr "y", .vDate "1999-12-31T23:59:59.000Z"])]))
      = stripPrivate (.vObj
      [("a", .vDate "2024-05-06T07:08:09.000Z"),
       ("_p", .vNum 1),
       ("b", .vObj [("c", .vDuration "PT1S"), ("_q", .vStr "hidden")]),
       ("l", .vArr [.vNum 1, .vStr "y", .vDate "1999-12-31T23:59:59.000Z"])]) :=
  c9_transformer_round_trip _ (by decide)

/-- C10 counterexample: right after construction the validation message
record of the current snapshot has no entry at all for a property without
a registered validator, so reading it yields undefined rather than the
empty string the claim requires. -/
theorem c10_counterexample :
    "retries" ∈ propertyNames mgrPlain
    ∧ "retries" ∉ keysOf mgrPlain.validators
    ∧ lookupProp (constructState mgrPlain).currentSettingsWrapper.validationMessages "retries"
        ≠ some "" := by
  refine ⟨by decide, by decide, by decide⟩

/-- C10 (amended): for a fixed property with no registered validator,
validate never reports it; after construction its validation message entry
is absent (reading it gives undefined, an empty message) and the safe view
agrees with the settings view; after loadFromFile its message entry is
never truthy and the safe view agrees with the settings view; after edit
and setProperty its message entry is exactly the empty string and the safe
view agrees with the settings view; and ensureSafe never overwrites it. -/
theorem c10_unvalidated_property_amended (m : PluginSettingsManagerBase)
    (hnd : (propertyNames m).Nodup) (p : String) (hp : p ∈ propertyNames m)
    (hv : p ∉ keysOf m.validators) :
    (∀ s, lookupProp (validate m s) p = none)
    ∧ (lookupProp (constructState m).currentSettingsWrapper.validationMessages p = none
       ∧ getProp (constructState m).currentSettingsWrapper.safeSettings p
           = getProp (constructState m).currentSettingsWrapper.settings p)
    ∧ (∀ data,
        truthyMsg (lookupProp
            (loadFromFile m data).state.currentSettingsWrapper.validationMessages p) = false
        ∧ getProp (loadFromFile m data).state.currentSettingsWrapper.safeSettings p
            = getProp (loadFromFile m data).state.currentSettingsWrapper.settings p)
    ∧ (∀ st ed, isObjV st.currentSettingsWrapper.safeSettings = true →
        lookupProp (edit m st ed).state.currentSettingsWrapper.validationMessages p = some ""
        ∧ getProp (edit m st ed).state.currentSettingsWrapper.safeSettings p
            = getProp (edit m st ed).state.currentSettingsWrapper.settings p)
    ∧ (∀ st q v, isObjV st.currentSettingsWrapper.safeSettings = true →
        lookupProp (setProperty m st q v).state.currentSettingsWrapper.validationMessages p = some ""
        ∧ getProp (setProperty m st q v).state.currentSettingsWrapper.safeSettings p
            = getProp (setProperty m st q v).state.currentSettingsWrapper.settings p)
    ∧ (∀ s, getProp (ensureSafe m s) p = getProp s p) := by
  have hval : ∀ s, lookupProp (validate m s) p = none :=
    fun s => validate_lookup_none m s p hv
  have hinv : ∀ (w : Wrapper), safeInvariant m w →
      lookupProp w.validationMessages p = some "" ∨ lookupProp w.validationMessages p = none →
      getProp w.safeSettings p = getProp w.settings p := by
    intro w hsafe hcase
    have := hsafe p hp
    rcases hcase with hc | hc <;> rw [hc] at this <;> simpa [truthyMsg] using this
  have hedit : ∀ st ed, isObjV st.currentSettingsWrapper.safeSettings = true →
      lookupProp (edit m st ed).state.currentSettingsWrapper.validationMessages p = some ""
      ∧ getProp (edit m st ed).state.currentSettingsWrapper.safeSettings p
          = getProp (edit m st ed).state.currentSettingsWrapper.settings p := by
    intro st ed hobj
    have hmsg : lookupProp (edit m st ed).state.currentSettingsWrapper.validationMessages p
        = some "" := by
      rw [edit_state_current, recomputeFold_msgs, lookupProp_foldSetE_mem _ _ _ p hnd hp, hval]
      rfl
    exact ⟨hmsg, hinv _ (safeInvariant_edit m hnd st ed hobj) (Or.inl hmsg)⟩
  refine ⟨hval, ⟨rfl, rfl⟩, ?_, hedit, ?_, ?_⟩
  · intro data
    have hsafe := safeInvariant_loadFromFile m hnd data
    by_cases h1 : isNullish data = true
    · rw [loadFromFile_nullish m data h1]
      exact ⟨rfl, rfl⟩
    · simp only [Bool.not_eq_true] at h1
      by_cases h2 : typeofV data = "object"
      · have hmsg : lookupProp
            (loadFromFile m data).state.currentSettingsWrapper.validationMessages p = some "" := by
          rw [loadFromFile_object_current m data h1 h2, loadedCurrentWrapper, applyLoadUpdates_msgs]
          rw [show (createDefaultSettingsWrapper m).validationMessages
              = ([] : List (String × String)) from rfl]
          rw [lookupProp_foldSetE_mem _ _ _ p hnd hp, hval]
          rfl
        refine ⟨by rw [hmsg]; rfl, ?_⟩
        exact hinv _ hsafe (Or.inl hmsg)
      · rw [loadFromFile_not_object m data h1 h2]
        exact ⟨rfl, rfl⟩
  · intro st q v hobj
    rw [setProperty_state]
    exact hedit st _ hobj
  · intro s
    rw [show ensureSafe m s = ensureSafeFold m (validate m s) s (propertyNames m) from rfl]
    exact ensureSafeFold_getProp_none m _ p (hval s) _ s

/-- Witness for C10 (amended) at the concrete retries manager, whose name
property has no validator. -/
theorem c10_unvalidated_property_amended_witness :
    (∀ s, lookupProp (validate mgrRetries s) "name" = none)
    ∧ (lookupProp (constructState mgrRetries).currentSettingsWrapper.validationMessages "name" = none
       ∧ getProp (constructState mgrRetries).currentSettingsWrapper.safeSettings "name"
           = getProp (constructState mgrRetries).currentSettingsWrapper.settings "name")
    ∧ (∀ data,
        truthyMsg (lookupProp
            (loadFromFile mgrRetries data).state.currentSettingsWrapper.validationMessages "name") = false
        ∧ getProp (loadFromFile mgrRetries data).state.currentSettingsWrapper.safeSettings "name"
            = getProp (loadFromFile mgrRetries data).state.currentSettingsWrapper.settings "name")
    ∧ (∀ st ed, isObjV st.currentSettingsWrapper.safeSettings = true →
        lookupProp (edit mgrRetries st ed).state.currentSettingsWrapper.validationMessages "name" = some ""
        ∧ getProp (edit mgrRetries st ed).state.currentSettingsWrapper.safeSettings "name"
            = getProp (edit mgrRetries st ed).state.currentSettingsWrapper.settings "name")
    ∧ (∀ st q v, isObjV st.currentSettingsWrapper.safeSettings = true →
        lookupProp (setProperty mgrRetries st q v).state.currentSettingsWrapper.validationMessages "name" = some ""
        ∧ getProp (setProperty mgrRetries st q v).state.currentSettingsWrapper.safeSettings "name"
            = getProp (setProperty mgrRetries st q v).state.currentSettingsWrapper.settings "name")
    ∧ (∀ s, getProp (ensureSafe mgrRetries s) "name" = getProp s "name") :=
  c10_unvalidated_property_amended mgrRetries (by decide) "name" (by decide) (by decide)

/-- C2: code bug evidence.  Editing retries to 4 and then calling saveToFile
twice with no edit in between performs two writes, not at most one: after
the first save the last saved settings are an unresolved promise object
(cloneSettings does not await its async calls), which never deep-equals the
unchanged current settings, so the dirty check never skips. -/
theorem c2_dirty_check_code_bug :
    firstSave.writes.length = 1
    ∧ secondSave.writes.length = 1
    ∧ secondSave.state.currentSettingsWrapper.settings
        = firstSave.state.currentSettingsWrapper.settings
    ∧ firstSave.state.lastSavedSettingsWrapper.settings
        = .vPromise (.vObj [("retries", .vNum 3), ("name", .vStr "x")]) := by
  refine ⟨by decide, by decide, by decide, by decide⟩

/-- C3: code bug evidence.  saveToFileImpl hands settingsToRawRecord the
whole current settings wrapper instead of its settings view, so the record
written after editing retries to 4 carries undefined for every property,
while the forward transformation of the current settings carries the edited
values. -/
theorem c3_saved_record_code_bug :
    firstSave.writes = [.vObj [("retries", .vUndefined), ("name", .vUndefined)]]
    ∧ settingsToRawRecord mgrPlain editedState.currentSettingsWrapper.settings
        = .vObj [("retries", .vNum 4), ("name", .vStr "x")]
    ∧ firstSave.writes
        ≠ [settingsToRawRecord mgrPlain editedState.currentSettingsWrapper.settings] := by
  refine ⟨by decide, by decide, by decide⟩

/-- C4: code bug evidence.  Loading a record whose when property holds the
serialized form of a date stores the raw serialized value into the parsed
settings; the backward transformation of the default chain would have
reconstructed the date-like value, as the claim requires. -/
theorem c4_backward_transform_code_bug :
    getProp (loadFromFile mgrDate
        (.vObj [("when", .vObj [("$date", .vStr "2099-01-01T00:00:00.000Z")])])).state.currentSettingsWrapper.settings "when"
      = .vObj [("$date", .vStr "2099-01-01T00:00:00.000Z")]
    ∧ bwdV (.vObj [("$date", .vStr "2099-01-01T00:00:00.000Z")])
        = .vDate "2099-01-01T00:00:00.000Z"
    ∧ getProp (loadFromFile mgrDate
        (.vObj [("when", .vObj [("$date", .vStr "2099-01-01T00:00:00.000Z")])])).state.currentSettingsWrapper.settings "when"
      ≠ .vDate "2099-01-01T00:00:00.000Z" := by
  refine ⟨by decide, by decide, by decide⟩

end ObsidianDevUtils
